import Mathlib

/-!
Verification of the sequence-number arithmetic and sequence-buffer core of
reliable.io (src/reliable.c), as a shallow embedding.

Modelling conventions:
- C uint16_t values are Nat with the bound < 65536 carried as a hypothesis
  where it matters; int values are Nat at call sites where the C program
  only ever passes non-negative values, with the two places where C int
  arithmetic can go negative (sequence + 1 overflowing uint16 on conversion,
  and sequence - num_entries converted to uint16) modelled explicitly with
  % 65536 respectively Int arithmetic followed by Int.toNat.
- The uint32_t entry_sequence array is modelled as a function Nat -> Nat;
  every access in the C code is at an index sequence % num_entries, so only
  the values at indices below num_entries are ever observable.  memset of
  the whole array with 0xFF bytes becomes the constant function 0xFFFFFFFF.
- The opaque entry_data payload area is not modelled; the void* return
  values of insert and find are modelled as the byte offset
  index * entry_stride into entry_data, with NULL as none.
- malloc returns uninitialized memory: reliable_sequence_buffer_create in
  the C source stores the malloc result into entry_sequence without any
  memset and without calling reliable_sequence_buffer_reset, so the initial
  tag contents are whatever was in the allocation.  That unspecified content
  is made explicit as the malloc_entry_sequence parameter of the model.
-/

/-- C: reliable_sequence_greater_than(uint16_t s1, uint16_t s2).
Both operands are promoted to int, so the subtractions do not wrap; the Nat
truncated subtraction agrees with the C int result under the guards. -/
def reliable_sequence_greater_than (s1 s2 : Nat) : Bool :=
  (decide (s1 > s2) && decide (s1 - s2 ≤ 32768)) ||
  (decide (s1 < s2) && decide (s2 - s1 > 32768))

/-- C: reliable_sequence_less_than(uint16_t s1, uint16_t s2). -/
def reliable_sequence_less_than (s1 s2 : Nat) : Bool :=
  reliable_sequence_greater_than s2 s1

/-- C: struct reliable_sequence_buffer_t (entry_data omitted, see header). -/
structure reliable_sequence_buffer_t where
  sequence : Nat
  num_entries : Nat
  entry_stride : Nat
  entry_sequence : Nat → Nat

/-- C: reliable_sequence_buffer_create.  The function mallocs the
entry_sequence array and returns without initializing it (there is no memset
and no call to reliable_sequence_buffer_reset in the source), so the initial
tag array is the uninitialized malloc contents, taken here as the explicit
argument malloc_entry_sequence. -/
def reliable_sequence_buffer_create (num_entries entry_stride : Nat)
    (malloc_entry_sequence : Nat → Nat) : reliable_sequence_buffer_t :=
  { sequence := 0
    num_entries := num_entries
    entry_stride := entry_stride
    entry_sequence := malloc_entry_sequence }

/-- C: reliable_sequence_buffer_reset: sequence = 0 and memset of the whole
entry_sequence array with 0xFF bytes, i.e. every slot becomes 0xFFFFFFFF. -/
def reliable_sequence_buffer_reset (b : reliable_sequence_buffer_t) :
    reliable_sequence_buffer_t :=
  { b with sequence := 0, entry_sequence := fun _ => 0xFFFFFFFF }

/-- The loop `for (sequence = start; sequence <= finish; ++sequence)
entry_sequence[sequence % num_entries] = 0xFFFFFFFF;` of
reliable_sequence_buffer_remove_entries, with count = finish + 1 - start
iterations. -/
def clear_seqs (n : Nat) : Nat → Nat → (Nat → Nat) → (Nat → Nat)
  | _, 0, f => f
  | start, count + 1, f =>
      clear_seqs n (start + 1) count
        (fun i => if i = start % n then 0xFFFFFFFF else f i)

/-- The adjustment `if (finish_sequence < start_sequence) finish_sequence
+= 65535;` at the top of reliable_sequence_buffer_remove_entries, which
linearizes a wrapped range. -/
def linFinish (start_sequence finish_sequence : Nat) : Nat :=
  if finish_sequence < start_sequence then finish_sequence + 65535
  else finish_sequence

/-- C: reliable_sequence_buffer_remove_entries.  Adds 65535 to
finish_sequence when finish_sequence < start_sequence; if the linearized span
is below num_entries it clears slot sequence % num_entries for every
sequence from start_sequence to the linearized finish inclusive, otherwise
it clears every slot. -/
def reliable_sequence_buffer_remove_entries (b : reliable_sequence_buffer_t)
    (start_sequence finish_sequence : Nat) : reliable_sequence_buffer_t :=
  let finish := linFinish start_sequence finish_sequence
  if finish - start_sequence < b.num_entries then
    { b with entry_sequence :=
        (clear_seqs b.num_entries start_sequence
          (finish + 1 - start_sequence) b.entry_sequence) }
  else
    { b with entry_sequence := fun _ => 0xFFFFFFFF }

/-- C: reliable_sequence_buffer_insert(uint16_t sequence).  The first guard
passes sequence + 1 through the uint16_t parameter, hence % 65536; the
rejection test converts the int sequence - num_entries to uint16_t, modelled
with Int arithmetic and Int.toNat.  The returned void* is modelled as the
byte offset index * entry_stride, with NULL as none. -/
def reliable_sequence_buffer_insert (b : reliable_sequence_buffer_t)
    (sequence : Nat) : Option Nat × reliable_sequence_buffer_t :=
  if reliable_sequence_greater_than ((sequence + 1) % 65536) b.sequence then
    let b1 := reliable_sequence_buffer_remove_entries b b.sequence sequence
    let b2 : reliable_sequence_buffer_t :=
      { b1 with sequence := (sequence + 1) % 65536 }
    let index := sequence % b2.num_entries
    (some (index * b2.entry_stride),
     { b2 with entry_sequence :=
         fun i => if i = index then sequence else b2.entry_sequence i })
  else if reliable_sequence_less_than sequence
      (Int.toNat (((b.sequence : Int) - (b.num_entries : Int)) % 65536)) then
    (none, b)
  else
    let index := sequence % b.num_entries
    (some (index * b.entry_stride),
     { b with entry_sequence :=
         fun i => if i = index then sequence else b.entry_sequence i })

/-- C: reliable_sequence_buffer_remove. -/
def reliable_sequence_buffer_remove (b : reliable_sequence_buffer_t)
    (sequence : Nat) : reliable_sequence_buffer_t :=
  { b with entry_sequence :=
      fun i => if i = sequence % b.num_entries then 0xFFFFFFFF
               else b.entry_sequence i }

/-- C: reliable_sequence_buffer_available. -/
def reliable_sequence_buffer_available (b : reliable_sequence_buffer_t)
    (sequence : Nat) : Bool :=
  b.entry_sequence (sequence % b.num_entries) == 0xFFFFFFFF

/-- C: reliable_sequence_buffer_exists ((uint32_t)sequence equals the stored
tag; for a uint16_t argument the cast is the identity). -/
def reliable_sequence_buffer_exists (b : reliable_sequence_buffer_t)
    (sequence : Nat) : Bool :=
  b.entry_sequence (sequence % b.num_entries) == sequence

/-- C: reliable_sequence_buffer_find; the returned payload pointer is the
byte offset index * entry_stride, NULL is none. -/
def reliable_sequence_buffer_find (b : reliable_sequence_buffer_t)
    (sequence : Nat) : Option Nat :=
  let index := sequence % b.num_entries
  if b.entry_sequence index == sequence then some (index * b.entry_stride)
  else none

/-- Membership of t in the cyclic inclusive range from lo to s over the
16-bit sequence space (the range wraps through 65535 when s is numerically
below lo). -/
def inCyclicRange (lo s t : Nat) : Bool :=
  if s < lo then (decide (lo ≤ t) && decide (t ≤ 65535)) || decide (t ≤ s)
  else decide (lo ≤ t) && decide (t ≤ s)

/-- Slot consistency invariant of a sequence buffer: each slot below
num_entries is either empty (0xFFFFFFFF) or holds a 16-bit tag that maps to
this slot under % num_entries. -/
def seqbuf_inv (b : reliable_sequence_buffer_t) : Prop :=
  0 < b.num_entries ∧
  ∀ i, i < b.num_entries →
    b.entry_sequence i = 0xFFFFFFFF ∨
    (b.entry_sequence i ≤ 65535 ∧ b.entry_sequence i % b.num_entries = i)

/-- A freshly reset 4-entry buffer used as a concrete test vector. -/
def demoBuf : reliable_sequence_buffer_t :=
  reliable_sequence_buffer_reset
    (reliable_sequence_buffer_create 4 1 (fun _ => 0))

/-- A concrete buffer state whose window has advanced to 20000, used to
exercise the rejection path of insert. -/
def rejBuf : reliable_sequence_buffer_t :=
  { sequence := 20000
    num_entries := 100
    entry_stride := 1
    entry_sequence := fun _ => 0xFFFFFFFF }

/-- The capacity-32 scenario buffer: sequences 0..31 inserted in order into
a freshly reset buffer. -/
def seqbuf32 : reliable_sequence_buffer_t :=
  (List.range 32).foldl
    (fun b i => (reliable_sequence_buffer_insert b i).2)
    (reliable_sequence_buffer_reset
      (reliable_sequence_buffer_create 32 1 (fun _ => 0)))

/-- Counterexample state 0: freshly reset buffer of capacity 65537. -/
def cexBuf0 : reliable_sequence_buffer_t :=
  reliable_sequence_buffer_reset
    (reliable_sequence_buffer_create 65537 1 (fun _ => 0))

/-- Counterexample state 1: sequence 49 inserted. -/
def cexBuf1 : reliable_sequence_buffer_t :=
  (reliable_sequence_buffer_insert cexBuf0 49).2

/-- Counterexample state 2: sequence 32000 inserted. -/
def cexBuf2 : reliable_sequence_buffer_t :=
  (reliable_sequence_buffer_insert cexBuf1 32000).2

/-- Counterexample state 3: sequence 64000 inserted. -/
def cexBuf3 : reliable_sequence_buffer_t :=
  (reliable_sequence_buffer_insert cexBuf2 64000).2

/-- Counterexample state 4: sequence 65100 inserted; the buffer now has
newest_sequence 65101 with the tag 49 still resident in slot 49. -/
def cexBuf4 : reliable_sequence_buffer_t :=
  (reliable_sequence_buffer_insert cexBuf3 65100).2

/-- C1: for 16-bit a and b with a different from b, exactly one of
greater_than(a,b) and greater_than(b,a) holds (including at the half-window
boundary), and greater_than(a,a) is false. -/
theorem C1_sequence_greater_than_strict_total (a b : Nat)
    (ha : a < 65536) (hb : b < 65536) :
    (a ≠ b →
      ((reliable_sequence_greater_than a b = true ∧
        reliable_sequence_greater_than b a = false) ∨
       (reliable_sequence_greater_than a b = false ∧
        reliable_sequence_greater_than b a = true))) ∧
    reliable_sequence_greater_than a a = false := by
  constructor
  · intro hne
    simp only [reliable_sequence_greater_than, Bool.or_eq_true,
      Bool.and_eq_true, decide_eq_true_eq, Bool.or_eq_false_iff,
      Bool.and_eq_false_iff, decide_eq_false_iff_not, not_lt, not_le]
    omega
  · simp only [reliable_sequence_greater_than, Bool.or_eq_false_iff,
      Bool.and_eq_false_iff, decide_eq_false_iff_not, not_lt, not_le]
    omega

theorem C1_witness :
    ((reliable_sequence_greater_than 32768 0 = true ∧
      reliable_sequence_greater_than 0 32768 = false) ∨
     (reliable_sequence_greater_than 32768 0 = false ∧
      reliable_sequence_greater_than 0 32768 = true)) ∧
    reliable_sequence_greater_than 32768 32768 = false :=
  ⟨(C1_sequence_greater_than_strict_total 32768 0 (by decide) (by decide)).1
      (by decide),
   (C1_sequence_greater_than_strict_total 32768 32768 (by decide)
      (by decide)).2⟩

theorem clear_seqs_apply (n : Nat) :
    ∀ (count start : Nat) (f : Nat → Nat) (i : Nat),
    clear_seqs n start count f i =
      if ∃ j ∈ Finset.range count, (start + j) % n = i then 0xFFFFFFFF
      else f i
  | 0, start, f, i => by simp [clear_seqs]
  | k + 1, start, f, i => by
      rw [clear_seqs, clear_seqs_apply n k (start + 1) _ i]
      by_cases h0 : i = start % n
      · have hex : ∃ j ∈ Finset.range (k + 1), (start + j) % n = i :=
          ⟨0, Finset.mem_range.mpr (Nat.succ_pos k), by simpa using h0.symm⟩
        by_cases h1 : ∃ j ∈ Finset.range k, (start + 1 + j) % n = i
        · rw [if_pos h1, if_pos hex]
        · rw [if_neg h1, if_pos h0, if_pos hex]
      · have hiff : (∃ j ∈ Finset.range k, (start + 1 + j) % n = i) ↔
            (∃ j ∈ Finset.range (k + 1), (start + j) % n = i) := by
          constructor
          · rintro ⟨j, hj, hji⟩
            refine ⟨j + 1, Finset.mem_range.mpr (by
              have := Finset.mem_range.mp hj; omega), ?_⟩
            rw [show start + (j + 1) = start + 1 + j from by omega]
            exact hji
          · rintro ⟨j, hj, hji⟩
            cases j with
            | zero => exact absurd ((Nat.add_zero start) ▸ hji).symm h0
            | succ j =>
                refine ⟨j, Finset.mem_range.mpr (by
                  have := Finset.mem_range.mp hj; omega), ?_⟩
                rw [show start + 1 + j = start + (j + 1) from by omega]
                exact hji
        by_cases h1 : ∃ j ∈ Finset.range k, (start + 1 + j) % n = i
        · rw [if_pos h1, if_pos (hiff.mp h1)]
        · rw [if_neg h1, if_neg (fun h => h1 (hiff.mpr h)), if_neg h0]

theorem remove_entries_num_entries (b : reliable_sequence_buffer_t)
    (st fi : Nat) :
    (reliable_sequence_buffer_remove_entries b st fi).num_entries =
      b.num_entries := by
  by_cases h : linFinish st fi - st < b.num_entries <;>
    simp [reliable_sequence_buffer_remove_entries, h]

theorem remove_entries_entry_stride (b : reliable_sequence_buffer_t)
    (st fi : Nat) :
    (reliable_sequence_buffer_remove_entries b st fi).entry_stride =
      b.entry_stride := by
  by_cases h : linFinish st fi - st < b.num_entries <;>
    simp [reliable_sequence_buffer_remove_entries, h]

theorem remove_entries_sequence (b : reliable_sequence_buffer_t)
    (st fi : Nat) :
    (reliable_sequence_buffer_remove_entries b st fi).sequence =
      b.sequence := by
  by_cases h : linFinish st fi - st < b.num_entries <;>
    simp [reliable_sequence_buffer_remove_entries, h]

theorem remove_entries_apply (b : reliable_sequence_buffer_t)
    (st fi i : Nat) :
    (reliable_sequence_buffer_remove_entries b st fi).entry_sequence i =
      (if linFinish st fi - st < b.num_entries then
        (if ∃ s ∈ Finset.Icc st (linFinish st fi), s % b.num_entries = i
         then 0xFFFFFFFF else b.entry_sequence i)
       else 0xFFFFFFFF) := by
  by_cases hspan : linFinish st fi - st < b.num_entries
  · simp only [reliable_sequence_buffer_remove_entries, hspan, if_true]
    rw [clear_seqs_apply]
    have hiff :
        (∃ j ∈ Finset.range (linFinish st fi + 1 - st),
          (st + j) % b.num_entries = i) ↔
        (∃ s ∈ Finset.Icc st (linFinish st fi),
          s % b.num_entries = i) := by
      constructor
      · rintro ⟨j, hj, hji⟩
        have hj' := Finset.mem_range.mp hj
        exact ⟨st + j, Finset.mem_Icc.mpr (by omega), hji⟩
      · rintro ⟨s, hs, hsi⟩
        have hs' := Finset.mem_Icc.mp hs
        refine ⟨s - st, Finset.mem_range.mpr (by omega), ?_⟩
        rw [show st + (s - st) = s from by omega]
        exact hsi
    by_cases hex : ∃ j ∈ Finset.range (linFinish st fi + 1 - st),
        (st + j) % b.num_entries = i
    · rw [if_pos hex, if_pos (hiff.mp hex)]
    · rw [if_neg hex, if_neg (fun h => hex (hiff.mpr h))]
  · simp only [reliable_sequence_buffer_remove_entries, hspan, if_false]

theorem insert_advance_parts (b : reliable_sequence_buffer_t) (s : Nat)
    (hg : reliable_sequence_greater_than ((s + 1) % 65536) b.sequence
      = true) :
    (reliable_sequence_buffer_insert b s).1 =
      some (s % b.num_entries * b.entry_stride) ∧
    (reliable_sequence_buffer_insert b s).2.sequence = (s + 1) % 65536 ∧
    (reliable_sequence_buffer_insert b s).2.num_entries = b.num_entries ∧
    (reliable_sequence_buffer_insert b s).2.entry_stride = b.entry_stride ∧
    ∀ i, (reliable_sequence_buffer_insert b s).2.entry_sequence i =
      (if i = s % b.num_entries then s
       else (reliable_sequence_buffer_remove_entries b b.sequence
          s).entry_sequence i) := by
  refine ⟨?_, ?_, ?_, ?_, ?_⟩ <;>
    simp [reliable_sequence_buffer_insert, hg, remove_entries_num_entries,
      remove_entries_entry_stride]

theorem insert_reject_eq (b : reliable_sequence_buffer_t) (s : Nat)
    (hg : reliable_sequence_greater_than ((s + 1) % 65536) b.sequence
      = false)
    (hl : reliable_sequence_less_than s
      (Int.toNat (((b.sequence : Int) - (b.num_entries : Int)) % 65536))
      = true) :
    reliable_sequence_buffer_insert b s = (none, b) := by
  simp [reliable_sequence_buffer_insert, hg, hl]

theorem insert_middle_parts (b : reliable_sequence_buffer_t) (s : Nat)
    (hg : reliable_sequence_greater_than ((s + 1) % 65536) b.sequence
      = false)
    (hl : reliable_sequence_less_than s
      (Int.toNat (((b.sequence : Int) - (b.num_entries : Int)) % 65536))
      = false) :
    (reliable_sequence_buffer_insert b s).1 =
      some (s % b.num_entries * b.entry_stride) ∧
    (reliable_sequence_buffer_insert b s).2.sequence = b.sequence ∧
    (reliable_sequence_buffer_insert b s).2.num_entries = b.num_entries ∧
    (reliable_sequence_buffer_insert b s).2.entry_stride = b.entry_stride ∧
    ∀ i, (reliable_sequence_buffer_insert b s).2.entry_sequence i =
      (if i = s % b.num_entries then s else b.entry_sequence i) := by
  refine ⟨?_, ?_, ?_, ?_, ?_⟩ <;>
    simp [reliable_sequence_buffer_insert, hg, hl]

/-- C2: the claim says that after reliable_sequence_buffer_create (capacity
and stride positive) every slot tag is the empty sentinel, so available is
true and exists false for every sequence.  The C function mallocs the tag
array and returns without initializing it, so with malloc contents 0 the
fresh capacity-1, stride-1 buffer already has exists(0) true and
available(0) false, contradicting the claim. -/
theorem C2_create_uninitialized_slots :
    reliable_sequence_buffer_exists
      (reliable_sequence_buffer_create 1 1 (fun _ => 0)) 0 = true ∧
    reliable_sequence_buffer_available
      (reliable_sequence_buffer_create 1 1 (fun _ => 0)) 0 = false := by
  constructor <;> rfl

/-- C4: reliable_sequence_buffer_remove_entries linearizes a wrapped range
by adding exactly 65535 to finish when finish is below start; when the
linearized span is strictly below the capacity it sets exactly the slots at
index s % capacity, for s from start to the linearized finish inclusive, to
the empty sentinel and leaves every other slot unchanged; when the span is
at least the capacity it sets every slot to the empty sentinel. -/
theorem C4_remove_entries_linearize_and_clear
    (b : reliable_sequence_buffer_t) (start finish i : Nat) :
    linFinish start finish =
      (if finish < start then finish + 65535 else finish) ∧
    (reliable_sequence_buffer_remove_entries b start
        finish).entry_sequence i =
      (if linFinish start finish - start < b.num_entries then
        (if ∃ s ∈ Finset.Icc start (linFinish start finish),
            s % b.num_entries = i
         then 0xFFFFFFFF else b.entry_sequence i)
       else 0xFFFFFFFF) :=
  ⟨rfl, remove_entries_apply b start finish i⟩

/-- C5: insert(s) returns nothing exactly when s + 1 is not more recent
than newest_sequence and s is older than newest_sequence - capacity
(converted to uint16), and a rejected insert leaves the buffer completely
unchanged. -/
theorem C5_insert_rejection_iff (b : reliable_sequence_buffer_t)
    (s : Nat) :
    ((reliable_sequence_buffer_insert b s).1 = none ↔
      (reliable_sequence_greater_than ((s + 1) % 65536) b.sequence
          = false ∧
       reliable_sequence_less_than s
        (Int.toNat (((b.sequence : Int) - (b.num_entries : Int)) % 65536))
          = true)) ∧
    ((reliable_sequence_buffer_insert b s).1 = none →
      (reliable_sequence_buffer_insert b s).2 = b) := by
  by_cases hg : reliable_sequence_greater_than ((s + 1) % 65536) b.sequence
      = true
  · have h := (insert_advance_parts b s hg).1
    constructor
    · constructor
      · intro hnone
        rw [h] at hnone
        exact absurd hnone (by simp)
      · rintro ⟨hg', _⟩
        rw [hg] at hg'
        cases hg'
    · intro hnone
      rw [h] at hnone
      exact absurd hnone (by simp)
  · have hg' : reliable_sequence_greater_than ((s + 1) % 65536) b.sequence
        = false := by simpa using hg
    by_cases hl : reliable_sequence_less_than s
        (Int.toNat (((b.sequence : Int) - (b.num_entries : Int)) % 65536))
        = true
    · have h := insert_reject_eq b s hg' hl
      rw [h]
      exact ⟨⟨fun _ => ⟨hg', hl⟩, fun _ => rfl⟩, fun _ => rfl⟩
    · have hl' : reliable_sequence_less_than s
          (Int.toNat (((b.sequence : Int) - (b.num_entries : Int))
            % 65536)) = false := by simpa using hl
      have h := (insert_middle_parts b s hg' hl').1
      constructor
      · constructor
        · intro hnone
          rw [h] at hnone
          exact absurd hnone (by simp)
        · rintro ⟨_, hl2⟩
          rw [hl2] at hl'
          cases hl'
      · intro hnone
        rw [h] at hnone
        exact absurd hnone (by simp)

theorem C5_witness :
    (reliable_sequence_buffer_insert rejBuf 5).1 = none ∧
    (reliable_sequence_buffer_insert rejBuf 5).2 = rejBuf :=
  ⟨(C5_insert_rejection_iff rejBuf 5).1.mpr ⟨by decide, by decide⟩,
   (C5_insert_rejection_iff rejBuf 5).2
     ((C5_insert_rejection_iff rejBuf 5).1.mpr ⟨by decide, by decide⟩)⟩

/-- C6: whenever s + 1 is more recent than newest_sequence, insert(s) takes
the window-advance branch, so the rejection branch is unreachable and a
valid slot pointer (the offset of slot s % capacity) is returned. -/
theorem C6_fresh_insert_never_rejected (b : reliable_sequence_buffer_t)
    (s : Nat)
    (hg : reliable_sequence_greater_than ((s + 1) % 65536) b.sequence
      = true) :
    (reliable_sequence_buffer_insert b s).1 =
      some (s % b.num_entries * b.entry_stride) :=
  (insert_advance_parts b s hg).1

theorem C6_witness :
    (reliable_sequence_buffer_insert demoBuf 7).1 =
      some (7 % demoBuf.num_entries * demoBuf.entry_stride) :=
  C6_fresh_insert_never_rejected demoBuf 7 (by decide)

/-- C7: if insert(s) succeeds with slot pointer p, then exists(s) holds
afterwards and find(s) returns exactly p, which is the payload offset of
slot s % capacity; and whenever exists(s) is false, find(s) returns
nothing. -/
theorem C7_insert_find_roundtrip (b : reliable_sequence_buffer_t)
    (s : Nat) :
    (∀ p, (reliable_sequence_buffer_insert b s).1 = some p →
      reliable_sequence_buffer_exists
        (reliable_sequence_buffer_insert b s).2 s = true ∧
      reliable_sequence_buffer_find
        (reliable_sequence_buffer_insert b s).2 s = some p ∧
      p = s % b.num_entries * b.entry_stride) ∧
    (reliable_sequence_buffer_exists b s = false →
      reliable_sequence_buffer_find b s = none) := by
  constructor
  · intro p hp
    by_cases hg : reliable_sequence_greater_than ((s + 1) % 65536)
        b.sequence = true
    · have h := insert_advance_parts b s hg
      rw [h.1] at hp
      have hp' : s % b.num_entries * b.entry_stride = p :=
        Option.some.inj hp
      refine ⟨?_, ?_, hp'.symm⟩
      · simp [reliable_sequence_buffer_exists, h.2.2.1,
          h.2.2.2.2 (s % b.num_entries)]
      · simp [reliable_sequence_buffer_find, h.2.2.1, h.2.2.2.1,
          h.2.2.2.2 (s % b.num_entries), hp']
    · have hg' : reliable_sequence_greater_than ((s + 1) % 65536)
          b.sequence = false := by simpa using hg
      by_cases hl : reliable_sequence_less_than s
          (Int.toNat (((b.sequence : Int) - (b.num_entries : Int))
            % 65536)) = true
      · rw [insert_reject_eq b s hg' hl] at hp
        exact absurd hp (by simp)
      · have hl' : reliable_sequence_less_than s
            (Int.toNat (((b.sequence : Int) - (b.num_entries : Int))
              % 65536)) = false := by simpa using hl
        have h := insert_middle_parts b s hg' hl'
        rw [h.1] at hp
        have hp' : s % b.num_entries * b.entry_stride = p :=
          Option.some.inj hp
        refine ⟨?_, ?_, hp'.symm⟩
        · simp [reliable_sequence_buffer_exists, h.2.2.1,
            h.2.2.2.2 (s % b.num_entries)]
        · simp [reliable_sequence_buffer_find, h.2.2.1, h.2.2.2.1,
            h.2.2.2.2 (s % b.num_entries), hp']
  · intro hne
    simp only [reliable_sequence_buffer_exists] at hne
    simp only [reliable_sequence_buffer_find, hne]
    rfl

theorem C7_witness :
    reliable_sequence_buffer_exists
      (reliable_sequence_buffer_insert demoBuf 0).2 0 = true ∧
    reliable_sequence_buffer_find
      (reliable_sequence_buffer_insert demoBuf 0).2 0 = some 0 ∧
    reliable_sequence_buffer_find demoBuf 3 = none :=
  ⟨((C7_insert_find_roundtrip demoBuf 0).1 0 (by decide)).1,
   ((C7_insert_find_roundtrip demoBuf 0).1 0 (by decide)).2.1,
   (C7_insert_find_roundtrip demoBuf 3).2 (by decide)⟩

/-- C8: remove(s) unconditionally empties the slot at s % capacity, so
available(s) holds and exists(s) fails afterwards, no other slot and not
newest_sequence is modified, and remove is idempotent. -/
theorem C8_remove_unconditional_idempotent (b : reliable_sequence_buffer_t)
    (s : Nat) (hs : s ≤ 65535) :
    reliable_sequence_buffer_available
      (reliable_sequence_buffer_remove b s) s = true ∧
    reliable_sequence_buffer_exists
      (reliable_sequence_buffer_remove b s) s = false ∧
    (reliable_sequence_buffer_remove b s).entry_sequence
      (s % b.num_entries) = 0xFFFFFFFF ∧
    (reliable_sequence_buffer_remove b s).sequence = b.sequence ∧
    (reliable_sequence_buffer_remove b s).num_entries = b.num_entries ∧
    (∀ i, i ≠ s % b.num_entries →
      (reliable_sequence_buffer_remove b s).entry_sequence i =
        b.entry_sequence i) ∧
    reliable_sequence_buffer_remove (reliable_sequence_buffer_remove b s) s
      = reliable_sequence_buffer_remove b s := by
  refine ⟨?_, ?_, ?_, rfl, rfl, ?_, ?_⟩
  · simp [reliable_sequence_buffer_available,
      reliable_sequence_buffer_remove]
  · have : (0xFFFFFFFF : Nat) ≠ s := by omega
    simp [reliable_sequence_buffer_exists,
      reliable_sequence_buffer_remove, this]
  · simp [reliable_sequence_buffer_remove]
  · intro i hi
    simp [reliable_sequence_buffer_remove, hi]
  · simp only [reliable_sequence_buffer_remove]
    congr 1
    funext i
    by_cases h : i = s % b.num_entries <;> simp [h]

theorem C8_witness :
    reliable_sequence_buffer_available
      (reliable_sequence_buffer_remove demoBuf 2) 2 = true ∧
    reliable_sequence_buffer_exists
      (reliable_sequence_buffer_remove demoBuf 2) 2 = false ∧
    reliable_sequence_buffer_remove
        (reliable_sequence_buffer_remove demoBuf 2) 2 =
      reliable_sequence_buffer_remove demoBuf 2 :=
  ⟨(C8_remove_unconditional_idempotent demoBuf 2 (by decide)).1,
   (C8_remove_unconditional_idempotent demoBuf 2 (by decide)).2.1,
   (C8_remove_unconditional_idempotent demoBuf 2 (by decide)).2.2.2.2.2.2⟩

/-- C10: exists(s) and available(s) are never both true for a 16-bit s,
since the single stored tag would have to equal both s (at most 65535) and
the sentinel 0xFFFFFFFF. -/
theorem C10_exists_available_mutually_exclusive
    (b : reliable_sequence_buffer_t) (s : Nat) (hs : s < 65536) :
    ¬(reliable_sequence_buffer_exists b s = true ∧
      reliable_sequence_buffer_available b s = true) := by
  rintro ⟨he, hav⟩
  simp only [reliable_sequence_buffer_exists, beq_iff_eq] at he
  simp only [reliable_sequence_buffer_available, beq_iff_eq] at hav
  omega

theorem C10_witness :
    ¬(reliable_sequence_buffer_exists demoBuf 0 = true ∧
      reliable_sequence_buffer_available demoBuf 0 = true) :=
  C10_exists_available_mutually_exclusive demoBuf 0 (by decide)

theorem seqbuf_inv_of_entries (b b' : reliable_sequence_buffer_t)
    (hnum : b'.num_entries = b.num_entries)
    (hinv : seqbuf_inv b)
    (hent : ∀ i, i < b.num_entries →
      b'.entry_sequence i = 0xFFFFFFFF ∨
      b'.entry_sequence i = b.entry_sequence i ∨
      (b'.entry_sequence i ≤ 65535 ∧
        b'.entry_sequence i % b.num_entries = i)) :
    seqbuf_inv b' := by
  obtain ⟨hn, hslots⟩ := hinv
  refine ⟨by omega, fun i hi => ?_⟩
  rw [hnum] at hi
  rcases hent i hi with he | he | he
  · exact Or.inl he
  · rcases hslots i hi with hb | hb
    · exact Or.inl (he.trans hb)
    · exact Or.inr ⟨by rw [he]; exact hb.1, by rw [he, hnum]; exact hb.2⟩
  · exact Or.inr ⟨he.1, by rw [hnum]; exact he.2⟩

theorem remove_entries_inv (b : reliable_sequence_buffer_t) (st fi : Nat)
    (hinv : seqbuf_inv b) :
    seqbuf_inv (reliable_sequence_buffer_remove_entries b st fi) := by
  refine seqbuf_inv_of_entries b _ (remove_entries_num_entries b st fi)
    hinv (fun i hi => ?_)
  rw [remove_entries_apply]
  by_cases hspan : linFinish st fi - st < b.num_entries
  · rw [if_pos hspan]
    by_cases hex : ∃ s ∈ Finset.Icc st (linFinish st fi),
        s % b.num_entries = i
    · rw [if_pos hex]; exact Or.inl rfl
    · rw [if_neg hex]; exact Or.inr (Or.inl rfl)
  · rw [if_neg hspan]; exact Or.inl rfl

/-- C9: from a reset buffer, insert (of a 16-bit sequence), remove and
remove_entries all preserve the invariant that every slot below the
capacity is either empty (0xFFFFFFFF) or holds a 16-bit tag v with
v % capacity equal to the slot index; consequently a tag equal to a 16-bit
t can only sit in the unique slot t % capacity. -/
theorem C9_slot_tag_invariant (b : reliable_sequence_buffer_t)
    (s st fi t j : Nat) (hn : 0 < b.num_entries) :
    seqbuf_inv (reliable_sequence_buffer_reset b) ∧
    (seqbuf_inv b → s ≤ 65535 →
      seqbuf_inv (reliable_sequence_buffer_insert b s).2) ∧
    (seqbuf_inv b →
      seqbuf_inv (reliable_sequence_buffer_remove b s)) ∧
    (seqbuf_inv b →
      seqbuf_inv (reliable_sequence_buffer_remove_entries b st fi)) ∧
    (seqbuf_inv b → t ≤ 65535 → j < b.num_entries →
      b.entry_sequence j = t → j = t % b.num_entries) := by
  refine ⟨⟨hn, fun i _ => Or.inl rfl⟩, ?_, ?_, ?_, ?_⟩
  · intro hinv hs
    by_cases hg : reliable_sequence_greater_than ((s + 1) % 65536)
        b.sequence = true
    · have h := insert_advance_parts b s hg
      have hinv1 := remove_entries_inv b b.sequence s hinv
      refine seqbuf_inv_of_entries
        (reliable_sequence_buffer_remove_entries b b.sequence s) _
        (by rw [h.2.2.1, remove_entries_num_entries])
        hinv1 (fun i hi => ?_)
      rw [h.2.2.2.2 i]
      by_cases hcol : i = s % b.num_entries
      · rw [if_pos hcol]
        refine Or.inr (Or.inr ⟨hs, ?_⟩)
        rw [remove_entries_num_entries, hcol]
      · rw [if_neg hcol]
        exact Or.inr (Or.inl rfl)
    · have hg' : reliable_sequence_greater_than ((s + 1) % 65536)
          b.sequence = false := by simpa using hg
      by_cases hl : reliable_sequence_less_than s
          (Int.toNat (((b.sequence : Int) - (b.num_entries : Int))
            % 65536)) = true
      · rw [insert_reject_eq b s hg' hl]
        exact hinv
      · have hl' : reliable_sequence_less_than s
            (Int.toNat (((b.sequence : Int) - (b.num_entries : Int))
              % 65536)) = false := by simpa using hl
        have h := insert_middle_parts b s hg' hl'
        refine seqbuf_inv_of_entries b _ h.2.2.1 hinv (fun i hi => ?_)
        rw [h.2.2.2.2 i]
        by_cases hcol : i = s % b.num_entries
        · rw [if_pos hcol]
          exact Or.inr (Or.inr ⟨hs, hcol.symm⟩)
        · rw [if_neg hcol]
          exact Or.inr (Or.inl rfl)
  · intro hinv
    refine seqbuf_inv_of_entries b _ rfl hinv (fun i hi => ?_)
    by_cases hcol : i = s % b.num_entries
    · exact Or.inl (by simp [reliable_sequence_buffer_remove, hcol])
    · exact Or.inr (Or.inl
        (by simp [reliable_sequence_buffer_remove, hcol]))
  · exact remove_entries_inv b st fi
  · rintro ⟨hn', hslots⟩ ht hj hjt
    rcases hslots j hj with hb | hb
    · rw [hjt] at hb; omega
    · rw [hjt] at hb
      exact hb.2.symm

theorem C9_witness :
    seqbuf_inv demoBuf ∧
    seqbuf_inv (reliable_sequence_buffer_insert demoBuf 5).2 :=
  ⟨(C9_slot_tag_invariant
      (reliable_sequence_buffer_create 4 1 (fun _ => 0)) 0 0 0 0 0
      (by decide)).1,
   (C9_slot_tag_invariant demoBuf 5 0 0 0 0 (by decide)).2.1
     ((C9_slot_tag_invariant
        (reliable_sequence_buffer_create 4 1 (fun _ => 0)) 0 0 0 0 0
        (by decide)).1)
     (by decide)⟩

/-- C3 (amended): for every buffer state whose capacity divides 65536 (in
particular every reachable state of such a buffer, e.g. the power-of-two
capacities used in practice) and every 16-bit s with s + 1 more recent than
newest_sequence, insert(s) sets newest_sequence to s + 1 mod 2^16, makes
exists(s) true, makes exists(t) false for every t other than s in the
cyclic inclusive range from the old newest_sequence to s, and makes
exists(t) false for every t other than s that shares the slot of s.  The
restriction on the capacity is forced by the 65535 linearization in
remove_entries: for capacities that do not divide 65536 the wrapped
eviction sweep clears misaligned slots and can leave a resident tag of the
range alive (see the capacity-65537 counterexample). -/
theorem C3_window_advance_eviction (b : reliable_sequence_buffer_t)
    (s t : Nat) (hn : 0 < b.num_entries) (hdvd : b.num_entries ∣ 65536)
    (hq : b.sequence ≤ 65535) (hs : s ≤ 65535)
    (hg : reliable_sequence_greater_than ((s + 1) % 65536) b.sequence
      = true) :
    (reliable_sequence_buffer_insert b s).2.sequence = (s + 1) % 65536 ∧
    reliable_sequence_buffer_exists
      (reliable_sequence_buffer_insert b s).2 s = true ∧
    (inCyclicRange b.sequence s t = true → t ≠ s →
      reliable_sequence_buffer_exists
        (reliable_sequence_buffer_insert b s).2 t = false) ∧
    (t % b.num_entries = s % b.num_entries → t ≠ s →
      reliable_sequence_buffer_exists
        (reliable_sequence_buffer_insert b s).2 t = false) := by
  have h := insert_advance_parts b s hg
  have hsame : ∀ u, u % b.num_entries = s % b.num_entries → u ≠ s →
      reliable_sequence_buffer_exists
        (reliable_sequence_buffer_insert b s).2 u = false := by
    intro u hcol hne
    simp only [reliable_sequence_buffer_exists, h.2.2.1, hcol]
    rw [h.2.2.2.2 (s % b.num_entries), if_pos rfl]
    have : s ≠ u := Ne.symm hne
    simp [this]
  refine ⟨h.2.1, ?_, ?_, fun hcol hne => hsame t hcol hne⟩
  · simp [reliable_sequence_buffer_exists, h.2.2.1,
      h.2.2.2.2 (s % b.num_entries)]
  · intro hin hne
    have ht65535 : t ≤ 65535 := by
      unfold inCyclicRange at hin
      by_cases hw : s < b.sequence
      · rw [if_pos hw] at hin
        simp only [Bool.or_eq_true, Bool.and_eq_true,
          decide_eq_true_eq] at hin
        rcases hin with ⟨_, h2⟩ | h2 <;> omega
      · rw [if_neg hw] at hin
        simp only [Bool.and_eq_true, decide_eq_true_eq] at hin
        omega
    by_cases hcol : t % b.num_entries = s % b.num_entries
    · exact hsame t hcol hne
    · simp only [reliable_sequence_buffer_exists, h.2.2.1]
      rw [h.2.2.2.2 (t % b.num_entries), if_neg hcol,
        remove_entries_apply]
      by_cases hspan : linFinish b.sequence s - b.sequence < b.num_entries
      · rw [if_pos hspan]
        have hexq : ∃ u ∈ Finset.Icc b.sequence (linFinish b.sequence s),
            u % b.num_entries = t % b.num_entries := by
          unfold inCyclicRange at hin
          unfold linFinish
          by_cases hw : s < b.sequence
          · rw [if_pos hw] at hin
            rw [if_pos hw]
            simp only [Bool.or_eq_true, Bool.and_eq_true,
              decide_eq_true_eq] at hin
            rcases hin with ⟨h1, h2⟩ | h2
            · exact ⟨t, Finset.mem_Icc.mpr (by omega), rfl⟩
            · refine ⟨t + 65536, Finset.mem_Icc.mpr (by omega), ?_⟩
              obtain ⟨k, hk⟩ := hdvd
              rw [hk, Nat.add_mul_mod_self_left]
          · rw [if_neg hw] at hin
            rw [if_neg hw]
            simp only [Bool.and_eq_true, decide_eq_true_eq] at hin
            exact ⟨t, Finset.mem_Icc.mpr (by omega), rfl⟩
        rw [if_pos hexq]
        simp only [beq_eq_false_iff_ne, ne_eq]
        omega
      · rw [if_neg hspan]
        simp only [beq_eq_false_iff_ne, ne_eq]
        omega

set_option maxRecDepth 100000 in
theorem C3_witness :
    (reliable_sequence_buffer_insert seqbuf32 32).2.sequence =
      (32 + 1) % 65536 ∧
    reliable_sequence_buffer_exists
      (reliable_sequence_buffer_insert seqbuf32 32).2 32 = true ∧
    reliable_sequence_buffer_exists
      (reliable_sequence_buffer_insert seqbuf32 32).2 0 = false :=
  ⟨(C3_window_advance_eviction seqbuf32 32 0 (by decide) (by decide)
      (by decide) (by decide) (by decide)).1,
   (C3_window_advance_eviction seqbuf32 32 0 (by decide) (by decide)
      (by decide) (by decide) (by decide)).2.1,
   (C3_window_advance_eviction seqbuf32 32 0 (by decide) (by decide)
      (by decide) (by decide) (by decide)).2.2.2 (by decide) (by decide)⟩

theorem cexBuf1_slot49 : cexBuf1.entry_sequence 49 = 49 := by
  have h := insert_advance_parts cexBuf0 49 (by decide)
  have hnum : cexBuf0.num_entries = 65537 := by decide
  show (reliable_sequence_buffer_insert cexBuf0 49).2.entry_sequence 49 = 49
  rw [h.2.2.2.2 49, if_pos (by rw [hnum])]

theorem cexBuf2_slot49 : cexBuf2.entry_sequence 49 = 49 := by
  have h := insert_advance_parts cexBuf1 32000 (by decide)
  have hseq : cexBuf1.sequence = 50 := by decide
  have hnum : cexBuf1.num_entries = 65537 := by decide
  show (reliable_sequence_buffer_insert cexBuf1 32000).2.entry_sequence 49
    = 49
  rw [h.2.2.2.2 49, if_neg (by rw [hnum]; decide), remove_entries_apply,
    hseq, hnum]
  rw [show linFinish 50 32000 = 32000 from by decide]
  have hnex : ¬∃ u ∈ Finset.Icc 50 32000, u % 65537 = 49 := by
    rintro ⟨u, hu, hmod⟩
    have hu' := Finset.mem_Icc.mp hu
    omega
  rw [if_pos (by decide : (32000 - 50 : Nat) < 65537), if_neg hnex]
  exact cexBuf1_slot49

theorem cexBuf3_slot49 : cexBuf3.entry_sequence 49 = 49 := by
  have h := insert_advance_parts cexBuf2 64000 (by decide)
  have hseq : cexBuf2.sequence = 32001 := by decide
  have hnum : cexBuf2.num_entries = 65537 := by decide
  show (reliable_sequence_buffer_insert cexBuf2 64000).2.entry_sequence 49
    = 49
  rw [h.2.2.2.2 49, if_neg (by rw [hnum]; decide), remove_entries_apply,
    hseq, hnum]
  rw [show linFinish 32001 64000 = 64000 from by decide]
  have hnex : ¬∃ u ∈ Finset.Icc 32001 64000, u % 65537 = 49 := by
    rintro ⟨u, hu, hmod⟩
    have hu' := Finset.mem_Icc.mp hu
    omega
  rw [if_pos (by decide : (64000 - 32001 : Nat) < 65537), if_neg hnex]
  exact cexBuf2_slot49

theorem cexBuf4_slot49 : cexBuf4.entry_sequence 49 = 49 := by
  have h := insert_advance_parts cexBuf3 65100 (by decide)
  have hseq : cexBuf3.sequence = 64001 := by decide
  have hnum : cexBuf3.num_entries = 65537 := by decide
  show (reliable_sequence_buffer_insert cexBuf3 65100).2.entry_sequence 49
    = 49
  rw [h.2.2.2.2 49, if_neg (by rw [hnum]; decide), remove_entries_apply,
    hseq, hnum]
  rw [show linFinish 64001 65100 = 65100 from by decide]
  have hnex : ¬∃ u ∈ Finset.Icc 64001 65100, u % 65537 = 49 := by
    rintro ⟨u, hu, hmod⟩
    have hu' := Finset.mem_Icc.mp hu
    omega
  rw [if_pos (by decide : (65100 - 64001 : Nat) < 65537), if_neg hnex]
  exact cexBuf3_slot49

theorem cexBuf5_slot49 :
    (reliable_sequence_buffer_insert cexBuf4 50).2.entry_sequence 49
      = 49 := by
  have h := insert_advance_parts cexBuf4 50 (by decide)
  have hseq : cexBuf4.sequence = 65101 := by decide
  have hnum : cexBuf4.num_entries = 65537 := by decide
  rw [h.2.2.2.2 49, if_neg (by rw [hnum]; decide), remove_entries_apply,
    hseq, hnum]
  rw [show linFinish 65101 50 = 65585 from by decide]
  have hnex : ¬∃ u ∈ Finset.Icc 65101 65585, u % 65537 = 49 := by
    rintro ⟨u, hu, hmod⟩
    have hu' := Finset.mem_Icc.mp hu
    omega
  rw [if_pos (by decide : (65585 - 65101 : Nat) < 65537), if_neg hnex]
  exact cexBuf4_slot49

/-- C3 (counterexample): a state reachable from reset in five inserts
(capacity 65537: reset; insert 49, 32000, 64000, 65100) has
newest_sequence 65101 and the tag 49 resident.  Inserting 50 satisfies the
claim's premise (51 is more recent than 65101), and 49 lies in the cyclic
inclusive range from 65101 to 50 and differs from 50, so the claim demands
that exists(49) become false; but the wrapped eviction sweep runs over the
linearized values 65101..65585, whose slots 65101..65536 and 0..48 miss
slot 49, so exists(49) is still true after the insert. -/
theorem C3_counterexample :
    cexBuf4.num_entries = 65537 ∧
    cexBuf4.sequence = 65101 ∧
    reliable_sequence_buffer_exists cexBuf4 49 = true ∧
    reliable_sequence_greater_than ((50 + 1) % 65536) cexBuf4.sequence
      = true ∧
    inCyclicRange 65101 50 49 = true ∧
    (49 : Nat) ≠ 50 ∧
    reliable_sequence_buffer_exists
      (reliable_sequence_buffer_insert cexBuf4 50).2 49 = true := by
  refine ⟨by decide, by decide, ?_, by decide, by decide, by decide, ?_⟩
  · simp only [reliable_sequence_buffer_exists,
      show cexBuf4.num_entries = 65537 from by decide,
      show (49 : Nat) % 65537 = 49 from by decide, cexBuf4_slot49]
    rfl
  · have h := insert_advance_parts cexBuf4 50 (by decide)
    simp only [reliable_sequence_buffer_exists, h.2.2.1,
      show cexBuf4.num_entries = 65537 from by decide,
      show (49 : Nat) % 65537 = 49 from by decide, cexBuf5_slot49]
    rfl
